import Mathlib

/-!
Verification of the content-optimization and metrics code of this repository.

The Python sources are shallowly embedded:
* text is `List Char`; Python `str.split()` whitespace and `re` classes `\s`, `\w`
  are modelled on ASCII code points (`isWS`, `isWordChar`);
* `re.findall(r"#\w+", t)` and `re.sub(r"#\w+\b", "", t)` are modelled by
  left-to-right maximal-munch scanners (`extract_hashtags`, `removeHashtags`);
  since `\w+` is greedy, the trailing `\b` in the substitution pattern is
  always satisfied and adds nothing;
* Python float arithmetic on metric ratios is modelled exactly over `ℚ`;
* the external TextBlob grammar corrector is an arbitrary function parameter
  `blobCorrect`; the CSV append performed by `append_metrics_row` is modelled
  by returning the row that is written.
-/

/-- ASCII whitespace, the class Python splits on: space, tab, LF, CR, VT, FF. -/
def isWS (c : Char) : Bool :=
  decide (c.toNat = 32 ∨ c.toNat = 9 ∨ c.toNat = 10 ∨ c.toNat = 13 ∨ c.toNat = 11 ∨ c.toNat = 12)

/-- Regex word character `\w` (ASCII): letters, digits, underscore. -/
def isWordChar (c : Char) : Bool :=
  decide ((65 ≤ c.toNat ∧ c.toNat ≤ 90) ∨ (97 ≤ c.toNat ∧ c.toNat ≤ 122) ∨
          (48 ≤ c.toNat ∧ c.toNat ≤ 57) ∨ c.toNat = 95)

theorem not_isWordChar_isWS {c : Char} (h : isWS c = true) : isWordChar c = false := by
  simp [isWS] at h
  simp [isWordChar]
  omega

theorem hash_not_isWS : isWS '#' = false := by decide

theorem hash_not_isWordChar : isWordChar '#' = false := by decide

theorem dropWhile_len_le (p : Char → Bool) (l : List Char) :
    (l.dropWhile p).length ≤ l.length :=
  (List.dropWhile_sublist p).length_le

/-- Python `str.lower()` (per character). -/
def pyLower (l : List Char) : List Char := l.map Char.toLower

/-- Python `str.strip()` of trailing whitespace. -/
def rstrip (l : List Char) : List Char := (l.reverse.dropWhile isWS).reverse

/-- Python `str.strip()`: drop leading and trailing whitespace. -/
def pyStrip (l : List Char) : List Char := (rstrip l).dropWhile isWS

/-- Python substring test `pat in text`. -/
def pyIn (pat : List Char) : List Char → Bool
  | [] => pat.isEmpty
  | c :: rest => pat.isPrefixOf (c :: rest) || pyIn pat rest

/-- `re.sub(r"\s+", " ", text)`: collapse every whitespace run to one space. -/
def collapseWS : List Char → List Char
  | [] => []
  | c :: rest =>
    if isWS c then ' ' :: collapseWS (rest.dropWhile isWS)
    else c :: collapseWS rest
termination_by l => l.length
decreasing_by
  all_goals simp
  have := dropWhile_len_le isWS rest
  omega

/-- Python `text.split()`: maximal runs of non-whitespace characters. -/
def splitWords : List Char → List (List Char)
  | [] => []
  | c :: rest =>
    if isWS c then splitWords rest
    else (c :: rest.takeWhile (fun d => !isWS d)) :: splitWords (rest.dropWhile (fun d => !isWS d))
termination_by l => l.length
decreasing_by
  all_goals simp
  have := dropWhile_len_le (fun d => !isWS d) rest
  omega

/-- `" ".join(ws)`. -/
def joinSpace : List (List Char) → List Char
  | [] => []
  | [w] => w
  | w :: ws => w ++ ' ' :: joinSpace ws

/-- `len(text.split())`. -/
def wordCount (l : List Char) : Nat := (splitWords l).length

/-- `re.findall(r"#\w+", text)`: left-to-right, non-overlapping, greedy. -/
def extract_hashtags : List Char → List (List Char)
  | [] => []
  | c :: rest =>
    if c = '#' then
      if (rest.takeWhile isWordChar).isEmpty then extract_hashtags rest
      else ('#' :: rest.takeWhile isWordChar) :: extract_hashtags (rest.dropWhile isWordChar)
    else extract_hashtags rest
termination_by l => l.length
decreasing_by
  all_goals simp
  have := dropWhile_len_le isWordChar rest
  omega

/-- `re.sub(r"#\w+\b", "", text)`: delete every (greedy) `#\w+` match. -/
def removeHashtags : List Char → List Char
  | [] => []
  | c :: rest =>
    if c = '#' then
      if (rest.takeWhile isWordChar).isEmpty then '#' :: removeHashtags rest
      else removeHashtags (rest.dropWhile isWordChar)
    else c :: removeHashtags rest
termination_by l => l.length
decreasing_by
  all_goals simp
  have := dropWhile_len_le isWordChar rest
  omega

/-- Number of `#\w+` matches in a text. -/
def hashtagCount (l : List Char) : Nat := (extract_hashtags l).length

-- ## Configuration constants of gen_content_optimization.py

def TRENDING_KEYWORDS : List (List Char) :=
  ["AI".toList, "Automation".toList, "Digital".toList,
   "Marketing".toList, "Innovation".toList, "Technology".toList]

def TRENDING_HASHTAGS : List (List Char) :=
  ["#AI".toList, "#Marketing".toList, "#Innovation".toList,
   "#Digital".toList, "#Automation".toList, "#Tech".toList]

def MAX_HASHTAGS : Nat := 3

def MIN_WORDS : Nat := 50

def MAX_WORDS : Nat := 100

def CTA_PHRASES : List (List Char) :=
  ["follow".toList, "subscribe".toList, "learn more".toList, "click".toList,
   "visit".toList, "try".toList, "join".toList, "buy".toList, "shop".toList]

-- ## Helper functions of gen_content_optimization.py

/-- `clean_text`: collapse whitespace and strip. -/
def clean_text (text : List Char) : List Char := pyStrip (collapseWS text)

/-- `contains_call_to_action`: any CTA phrase occurs in the lowercased text. -/
def contains_call_to_action (text : List Char) : Bool :=
  CTA_PHRASES.any (fun phrase => pyIn phrase (pyLower text))

/-- `text.endswith((".", "!", "?"))`. -/
def endsPunct (l : List Char) : Bool :=
  match l.getLast? with
  | some c => c = '.' || c = '!' || c = '?'
  | none => false

/-- `limit_hashtags`: keep at most `max_tags` hashtags, preserving first occurrences.
Note both branches of the source's `sep` conditional are a single space. -/
def limit_hashtags (text : List Char) (max_tags : Nat) : List Char :=
  let tags := extract_hashtags text
  if tags.length ≤ max_tags then text
  else
    let kept := tags.take max_tags
    let text_no_tags := removeHashtags text
    let sep := if endsPunct text_no_tags then [' '] else [' ']
    pyStrip (pyStrip text_no_tags ++ sep ++ joinSpace kept)

/-- `"#" + re.sub(r"\W+", "", keyword)`: the hashtag form of a keyword. -/
def tagOfKeyword (k : List Char) : List Char := '#' :: k.filter isWordChar

/-- The keyword loop of `ensure_hashtags_from_keywords`: append the tag if its
lowercase form is new, then break once `max_tags` tags have been collected. -/
def addTagsLoop (existing_lower : List (List Char)) (max_tags : Nat) :
    List (List Char) → List (List Char) → List (List Char)
  | [], acc => acc
  | k :: ks, acc =>
    let tag := tagOfKeyword k
    let acc' :=
      if pyLower tag ∈ existing_lower ∨ pyLower tag ∈ acc.map pyLower then acc
      else acc ++ [tag]
    if max_tags ≤ acc'.length then acc' else addTagsLoop existing_lower max_tags ks acc'

/-- `ensure_hashtags_from_keywords`: add up to `max_tags` keyword hashtags not
already present (case-insensitive). -/
def ensure_hashtags_from_keywords (text : List Char) (keywords : List (List Char))
    (max_tags : Nat) : List Char :=
  let existing_lower := (extract_hashtags text).map pyLower
  let hashtags_to_add := addTagsLoop existing_lower max_tags keywords []
  if hashtags_to_add.isEmpty then text
  else
    let sep := if endsPunct text then [' '] else [' ', '·', ' ']
    pyStrip (text ++ sep ++ joinSpace hashtags_to_add)

/-- `truncate_or_pad_words`: truncate to `max_words` words plus `"..."`, or pad
a too-short text with the first two trending hashtags. -/
def truncate_or_pad_words (text : List Char) (min_words max_words : Nat) : List Char :=
  let words := splitWords text
  if max_words < words.length then joinSpace (words.take max_words) ++ "...".toList
  else if words.length < min_words then pyStrip (text ++ ' ' :: joinSpace (TRENDING_HASHTAGS.take 2))
  else text

/-- `grammar_correction` with `APPLY_GRAMMAR_CORRECTION = True`: empty text is
returned unchanged; otherwise the external TextBlob corrector runs (modelled by
the arbitrary `blobCorrect`; its failure fallback is a possible value of it). -/
def grammar_correction (blobCorrect : List Char → List Char) (text : List Char) : List Char :=
  if text.isEmpty then text else blobCorrect text

/-- `output_text[0].upper() + output_text[1:]` guarded by `if output_text:`. -/
def capFirst : List Char → List Char
  | [] => []
  | c :: rest => c.toUpper :: rest

/-- Steps 1-5 of `optimize_content` (everything before the length clamp). -/
def optimizePreClamp (blobCorrect : List Char → List Char) (text : List Char) : List Char :=
  let output1 := clean_text text
  let output2 := grammar_correction blobCorrect output1
  let output3 :=
    if contains_call_to_action output2 then output2
    else output2 ++ " Learn more and join the movement!".toList
  let output4 := limit_hashtags output3 MAX_HASHTAGS
  let current_tags := extract_hashtags output4
  if current_tags.length < MAX_HASHTAGS then
    ensure_hashtags_from_keywords output4 TRENDING_KEYWORDS (MAX_HASHTAGS - current_tags.length)
  else output4

/-- `optimize_content`: the full pipeline on string input. -/
def optimize_content (blobCorrect : List Char → List Char) (text : List Char) : List Char :=
  let output5 := optimizePreClamp blobCorrect text
  let output6 := truncate_or_pad_words output5 MIN_WORDS MAX_WORDS
  collapseWS (capFirst (pyStrip output6))

-- ## milestone3.py: sentiment lexicon, metrics, alerts, A/B testing

def POSITIVE_WORDS : List (List Char) :=
  ["great".toList, "good".toList, "love".toList, "amazing".toList, "excellent".toList,
   "nice".toList, "wow".toList, "super".toList, "fantastic".toList, "awesome".toList,
   "happy".toList]

def NEGATIVE_WORDS : List (List Char) :=
  ["bad".toList, "hate".toList, "poor".toList, "terrible".toList, "worst".toList,
   "boring".toList, "awful".toList, "angry".toList, "sad".toList, "disappointing".toList]

/-- `text.lower().split()` — the token list of `analyze_sentiment`. -/
def lexTokens (text : List Char) : List (List Char) := splitWords (pyLower text)

/-- `pos`: how many tokens lie in the positive lexicon. -/
def posCount (text : List Char) : Nat :=
  (lexTokens text).countP (fun t => t ∈ POSITIVE_WORDS)

/-- `neg`: how many tokens lie in the negative lexicon. -/
def negCount (text : List Char) : Nat :=
  (lexTokens text).countP (fun t => t ∈ NEGATIVE_WORDS)

/-- `analyze_sentiment` of milestone3.py: lexicon bag-of-words score and label.
Python float division is modelled exactly over `ℚ`. -/
def analyze_sentiment (text : List Char) : ℚ × String :=
  if (lexTokens text).isEmpty then (0, "neutral")
  else if posCount text = 0 ∧ negCount text = 0 then (0, "neutral")
  else
    let score : ℚ := ((posCount text : ℚ) - (negCount text : ℚ)) /
      ((posCount text : ℚ) + (negCount text : ℚ))
    if score > 0.2 then (score, "positive")
    else if score < -0.2 then (score, "negative")
    else (score, "neutral")

/-- Round half to even at `10^-4`, modelling Python `round(x, 4)`. -/
def pyRound4 (q : ℚ) : ℚ :=
  let n : ℤ := ⌊q * 10000⌋
  let frac : ℚ := q * 10000 - n
  (if frac < 1/2 then (n : ℚ)
   else if 1/2 < frac then (n + 1 : ℚ)
   else if n % 2 = 0 then (n : ℚ) else (n + 1 : ℚ)) / 10000

/-- One CSV row of milestone3_metrics.csv, in header order.  The timestamp is
supplied by the caller (it comes from the clock). -/
structure MetricsRow where
  timestamp : String
  post_id : List Char
  variant : List Char
  text : List Char
  sentiment_score : ℚ
  sentiment_label : String
  impressions : ℤ
  clicks : ℤ
  likes : ℤ
  comments : ℤ
  ctr : ℚ
  engagement_rate : ℚ
  ab_test_id : List Char
  ab_winner : List Char
  ab_reason : List Char

/-- `append_metrics_row`: clamp impressions, compute the ratios, append one row
to the CSV (modelled by returning the row), and return `(ctr, eng)`. -/
def append_metrics_row (ts : String) (post_id variant text : List Char)
    (impressions clicks likes comments : ℤ)
    (sentiment_score : ℚ) (sentiment_label : String)
    (ab_test_id ab_winner ab_reason : Option (List Char)) :
    MetricsRow × ℚ × ℚ :=
  let impressions' := max 1 impressions
  let ctr : ℚ := (clicks : ℚ) / (impressions' : ℚ)
  let eng : ℚ := ((likes : ℚ) + (comments : ℚ)) / (impressions' : ℚ)
  let row : MetricsRow :=
    { timestamp := ts
      post_id := post_id
      variant := variant
      text := text
      sentiment_score := pyRound4 sentiment_score
      sentiment_label := sentiment_label
      impressions := impressions'
      clicks := clicks
      likes := likes
      comments := comments
      ctr := pyRound4 ctr
      engagement_rate := pyRound4 eng
      ab_test_id := ab_test_id.getD []
      ab_winner := ab_winner.getD []
      ab_reason := ab_reason.getD [] }
  (row, ctr, eng)

def HIGH_CTR : ℚ := 0.10

def HIGH_ENG : ℚ := 0.15

def LOW_CTR : ℚ := 0.02

/-- The first alert condition of `maybe_send_alert`. -/
def highPerformingCond (ctr eng : ℚ) : Prop := ctr ≥ HIGH_CTR ∨ eng ≥ HIGH_ENG

/-- The second alert condition of `maybe_send_alert`. -/
def lowPerformanceCond (ctr sentiment : ℚ) : Prop := ctr ≤ LOW_CTR ∧ sentiment < 0

instance (c e : ℚ) : Decidable (highPerformingCond c e) := by
  unfold highPerformingCond; infer_instance

instance (c s : ℚ) : Decidable (lowPerformanceCond c s) := by
  unfold lowPerformanceCond; infer_instance

/-- Which of the two Slack messages `maybe_send_alert` sends. -/
inductive AlertMsg where
  | highPerforming : AlertMsg
  | lowPerformance : AlertMsg
deriving DecidableEq

/-- `maybe_send_alert` as a decision function: the if/elif chain of the source,
returning which alert message (if any) is sent. -/
def maybe_send_alert (ctr eng sentiment : ℚ) : Option AlertMsg :=
  if highPerformingCond ctr eng then some AlertMsg.highPerforming
  else if lowPerformanceCond ctr sentiment then some AlertMsg.lowPerformance
  else none

/-- One A/B counter group: a dict with impressions, clicks, likes, comments. -/
structure Counters where
  impressions : ℤ
  clicks : ℤ
  likes : ℤ
  comments : ℤ

/-- The local `ctr` helper of `evaluate_ab_test`. -/
def ctrOf (x : Counters) : ℚ := (x.clicks : ℚ) / ((max 1 x.impressions : ℤ) : ℚ)

/-- The local `eng` helper of `evaluate_ab_test`. -/
def engOf (x : Counters) : ℚ :=
  ((x.likes : ℚ) + (x.comments : ℚ)) / ((max 1 x.impressions : ℤ) : ℚ)

/-- Result of `evaluate_ab_test` (the human-readable `explanation` string,
built by float formatting, is not modelled). -/
structure ABResult where
  winner : String
  reason : String
  a_ctr : ℚ
  a_eng : ℚ
  b_ctr : ℚ
  b_eng : ℚ

/-- `evaluate_ab_test`: deterministic tie-break chain CTR, then engagement. -/
def evaluate_ab_test (ab_test_id : String) (A B : Counters) : ABResult :=
  let a_ctr := ctrOf A
  let b_ctr := ctrOf B
  let a_eng := engOf A
  let b_eng := engOf B
  if a_ctr > b_ctr then
    { winner := "A", reason := "higher CTR",
      a_ctr := a_ctr, a_eng := a_eng, b_ctr := b_ctr, b_eng := b_eng }
  else if b_ctr > a_ctr then
    { winner := "B", reason := "higher CTR",
      a_ctr := a_ctr, a_eng := a_eng, b_ctr := b_ctr, b_eng := b_eng }
  else if a_eng > b_eng then
    { winner := "A", reason := "higher engagement",
      a_ctr := a_ctr, a_eng := a_eng, b_ctr := b_ctr, b_eng := b_eng }
  else if b_eng > a_eng then
    { winner := "B", reason := "higher engagement",
      a_ctr := a_ctr, a_eng := a_eng, b_ctr := b_ctr, b_eng := b_eng }
  else
    { winner := "tie", reason := "similar performance",
      a_ctr := a_ctr, a_eng := a_eng, b_ctr := b_ctr, b_eng := b_eng }

-- ## Scanner case lemmas

theorem takeWhile_append_single {p : Char → Bool} {c : Char} (hc : p c = false)
    (a b : List Char) : ((a ++ c :: b).takeWhile p) = a.takeWhile p := by
  induction a with
  | nil => simp [List.takeWhile_cons, hc]
  | cons d a' ih =>
    by_cases hd : p d
    · simp [List.takeWhile_cons, hd, ih]
    · simp [List.takeWhile_cons, hd]

theorem dropWhile_append_single {p : Char → Bool} {c : Char} (hc : p c = false)
    (a b : List Char) : ((a ++ c :: b).dropWhile p) = a.dropWhile p ++ c :: b := by
  induction a with
  | nil => simp [List.dropWhile_cons, hc]
  | cons d a' ih =>
    by_cases hd : p d
    · simp [List.dropWhile_cons, hd, ih]
    · simp [List.dropWhile_cons, hd]

theorem takeWhile_eq_self_of_all {p : Char → Bool} :
    ∀ {l : List Char}, (∀ x ∈ l, p x = true) → l.takeWhile p = l
  | [], _ => rfl
  | d :: l', h => by
    have hd := h d (by simp)
    rw [List.takeWhile_cons_of_pos hd,
        takeWhile_eq_self_of_all (fun x hx => h x (by simp [hx]))]

theorem dropWhile_eq_nil_of_all {p : Char → Bool} :
    ∀ {l : List Char}, (∀ x ∈ l, p x = true) → l.dropWhile p = []
  | [], _ => rfl
  | d :: l', h => by
    have hd := h d (by simp)
    rw [List.dropWhile_cons_of_pos hd,
        dropWhile_eq_nil_of_all (fun x hx => h x (by simp [hx]))]

theorem extract_nil : extract_hashtags [] = [] := by rw [extract_hashtags]

theorem extract_cons_ne {c : Char} (h : ¬ c = '#') (l : List Char) :
    extract_hashtags (c :: l) = extract_hashtags l := by
  rw [extract_hashtags]; simp [h]

theorem extract_cons_hash_nw {l : List Char} (h : (l.takeWhile isWordChar).isEmpty = true) :
    extract_hashtags ('#' :: l) = extract_hashtags l := by
  rw [extract_hashtags]; simp [h]

theorem extract_cons_hash_w {l : List Char} (h : ¬ (l.takeWhile isWordChar).isEmpty = true) :
    extract_hashtags ('#' :: l) =
      ('#' :: l.takeWhile isWordChar) :: extract_hashtags (l.dropWhile isWordChar) := by
  rw [extract_hashtags]; simp [h]

theorem remove_nil : removeHashtags [] = [] := by rw [removeHashtags]

theorem remove_cons_ne {c : Char} (h : ¬ c = '#') (l : List Char) :
    removeHashtags (c :: l) = c :: removeHashtags l := by
  rw [removeHashtags]; simp [h]

theorem remove_cons_hash_nw {l : List Char} (h : (l.takeWhile isWordChar).isEmpty = true) :
    removeHashtags ('#' :: l) = '#' :: removeHashtags l := by
  rw [removeHashtags]; simp [h]

theorem remove_cons_hash_w {l : List Char} (h : ¬ (l.takeWhile isWordChar).isEmpty = true) :
    removeHashtags ('#' :: l) = removeHashtags (l.dropWhile isWordChar) := by
  rw [removeHashtags]; simp [h]

theorem splitWords_nil : splitWords [] = [] := by rw [splitWords]

theorem splitWords_cons_ws {c : Char} (h : isWS c = true) (l : List Char) :
    splitWords (c :: l) = splitWords l := by
  rw [splitWords]; simp [h]

theorem splitWords_cons_nws {c : Char} (h : isWS c = false) (l : List Char) :
    splitWords (c :: l) =
      (c :: l.takeWhile (fun d => !isWS d)) :: splitWords (l.dropWhile (fun d => !isWS d)) := by
  rw [splitWords]; simp [h]

theorem collapseWS_nil : collapseWS [] = [] := by rw [collapseWS]

theorem collapseWS_cons_ws {c : Char} (h : isWS c = true) (l : List Char) :
    collapseWS (c :: l) = ' ' :: collapseWS (l.dropWhile isWS) := by
  rw [collapseWS]; simp [h]

theorem collapseWS_cons_nws {c : Char} (h : isWS c = false) (l : List Char) :
    collapseWS (c :: l) = c :: collapseWS l := by
  rw [collapseWS]; simp [h]

-- ## Hashtag-extraction lemmas

theorem ws_ne_hash {c : Char} (h : isWS c = true) : ¬ c = '#' := by
  intro hc; rw [hc] at h; rw [hash_not_isWS] at h; exact Bool.false_ne_true h

/-- "The head, if any, is not a word character." -/
def headNotWord : List Char → Prop
  | [] => True
  | c :: _ => isWordChar c = false

theorem takeWhile_word_isEmpty_iff (l : List Char) :
    ((l.takeWhile isWordChar).isEmpty = true) ↔ headNotWord l := by
  cases l with
  | nil => simp [headNotWord]
  | cons c r =>
    by_cases h : isWordChar c
    · simp [List.takeWhile_cons, h, headNotWord]
    · simp [List.takeWhile_cons, h, headNotWord]

theorem takeWhile_isEmpty_append {p : Char → Bool} {c : Char} (hc : p c = false)
    {a : List Char} (h : (a.takeWhile p).isEmpty = true) (b : List Char) :
    (((a ++ c :: b).takeWhile p).isEmpty = true) := by
  cases a with
  | nil => simp [List.takeWhile_cons, hc]
  | cons d a' =>
    by_cases hd : p d
    · simp [List.takeWhile_cons, hd] at h
    · simp [List.takeWhile_cons, hd]

/-- Matches of `#\w+` never straddle a non-word character: extraction
distributes over an append whose boundary character is not a word character. -/
theorem extract_append {c : Char} (hc : isWordChar c = false) (a : List Char) :
    ∀ b : List Char,
      extract_hashtags (a ++ c :: b) = extract_hashtags a ++ extract_hashtags (c :: b) := by
  induction a using extract_hashtags.induct with
  | case1 => intro b; rw [extract_nil]; simp
  | case2 rest hw ih =>
    intro b
    rw [List.cons_append, extract_cons_hash_nw (takeWhile_isEmpty_append hc hw b),
        extract_cons_hash_nw hw, ih b]
  | case3 rest hw ih =>
    intro b
    have htw : (rest ++ c :: b).takeWhile isWordChar = rest.takeWhile isWordChar :=
      takeWhile_append_single hc rest b
    have hne : ¬ ((rest ++ c :: b).takeWhile isWordChar).isEmpty = true := by
      rw [htw]; exact hw
    rw [List.cons_append, extract_cons_hash_w hne, htw,
        dropWhile_append_single hc rest b, ih b, extract_cons_hash_w hw]
    simp
  | case4 d rest hd ih =>
    intro b
    rw [List.cons_append, extract_cons_ne hd, extract_cons_ne hd, ih b]

theorem extract_eq_nil_of_no_hash {l : List Char} (h : ∀ x ∈ l, ¬ x = '#') :
    extract_hashtags l = [] := by
  induction l with
  | nil => exact extract_nil
  | cons c r ih =>
    rw [extract_cons_ne (h c (by simp)), ih (fun x hx => h x (by simp [hx]))]

theorem headNotWord_dropWhile_word (l : List Char) : headNotWord (l.dropWhile isWordChar) := by
  have h2 := List.head?_dropWhile_not isWordChar l
  cases hd : l.dropWhile isWordChar with
  | nil => trivial
  | cons e r =>
    rw [hd] at h2
    simpa [headNotWord] using h2

theorem headNotWord_remove (l : List Char) (h : headNotWord l) :
    headNotWord (removeHashtags l) := by
  induction l using removeHashtags.induct with
  | case1 => rw [remove_nil]; trivial
  | case2 rest hw ih =>
    rw [remove_cons_hash_nw hw]
    simpa [headNotWord] using hash_not_isWordChar
  | case3 rest hw ih =>
    rw [remove_cons_hash_w hw]
    exact ih (headNotWord_dropWhile_word rest)
  | case4 c rest hc ih =>
    rw [remove_cons_ne hc]
    exact h

/-- Deleting all `#\w+` matches leaves a text with no matches at all. -/
theorem extract_remove (l : List Char) : extract_hashtags (removeHashtags l) = [] := by
  induction l using removeHashtags.induct with
  | case1 => rw [remove_nil, extract_nil]
  | case2 rest hw ih =>
    rw [remove_cons_hash_nw hw]
    have hnw : headNotWord (removeHashtags rest) :=
      headNotWord_remove rest ((takeWhile_word_isEmpty_iff rest).mp hw)
    rw [extract_cons_hash_nw ((takeWhile_word_isEmpty_iff _).mpr hnw), ih]
  | case3 rest hw ih =>
    rw [remove_cons_hash_w hw]; exact ih
  | case4 c rest hc ih =>
    rw [remove_cons_ne hc, extract_cons_ne hc, ih]

-- ## splitWords lemmas

theorem splitWords_shape (l : List Char) :
    ∀ w ∈ splitWords l, w ≠ [] ∧ ∀ c ∈ w, isWS c = false := by
  induction l using splitWords.induct with
  | case1 => rw [splitWords_nil]; simp
  | case2 c rest hc ih => rw [splitWords_cons_ws hc]; exact ih
  | case3 c rest hc ih =>
    rw [splitWords_cons_nws (Bool.eq_false_iff.mpr hc)]
    intro w hw
    rcases List.mem_cons.mp hw with h1 | h2
    · subst h1
      refine ⟨by simp, ?_⟩
      intro d hd
      rcases List.mem_cons.mp hd with h3 | h4
      · subst h3; exact Bool.eq_false_iff.mpr hc
      · have := List.mem_takeWhile_imp h4
        simpa using this
    · exact ih w h2

theorem splitWords_append_ws {c : Char} (hc : isWS c = true) (a : List Char) :
    ∀ b : List Char, splitWords (a ++ c :: b) = splitWords a ++ splitWords b := by
  have hc' : (!isWS c) = false := by simp [hc]
  induction a using splitWords.induct with
  | case1 => intro b; rw [splitWords_nil, List.nil_append, splitWords_cons_ws hc, List.nil_append]
  | case2 d rest hd ih =>
    intro b
    rw [List.cons_append, splitWords_cons_ws hd, splitWords_cons_ws hd, ih b]
  | case3 d rest hd ih =>
    intro b
    have hd' : isWS d = false := Bool.eq_false_iff.mpr hd
    rw [List.cons_append, splitWords_cons_nws hd', splitWords_cons_nws hd',
        takeWhile_append_single hc' rest b, dropWhile_append_single hc' rest b, ih b]
    simp

theorem splitWords_eq_nil_of_all_ws (l : List Char) (h : ∀ x ∈ l, isWS x = true) :
    splitWords l = [] := by
  induction l with
  | nil => exact splitWords_nil
  | cons c r ih =>
    rw [splitWords_cons_ws (h c (by simp)), ih (fun x hx => h x (by simp [hx]))]

theorem splitWords_token {l : List Char} (hne : l ≠ [])
    (h : ∀ c ∈ l, isWS c = false) : splitWords l = [l] := by
  cases l with
  | nil => exact absurd rfl hne
  | cons c r =>
    have hall : ∀ x ∈ r, (!isWS x) = true := by
      intro x hx; simp [h x (by simp [hx])]
    rw [splitWords_cons_nws (h c (by simp)), takeWhile_eq_self_of_all hall,
        dropWhile_eq_nil_of_all hall, splitWords_nil]

theorem splitWords_dropWhileWS (l : List Char) :
    splitWords (l.dropWhile isWS) = splitWords l := by
  induction l with
  | nil => rfl
  | cons c r ih =>
    by_cases hc : isWS c
    · rw [List.dropWhile_cons_of_pos hc, ih, splitWords_cons_ws hc]
    · rw [List.dropWhile_cons_of_neg hc]

theorem rstrip_spec (l : List Char) :
    l = rstrip l ++ (l.reverse.takeWhile isWS).reverse ∧
      ∀ c ∈ (l.reverse.takeWhile isWS).reverse, isWS c = true := by
  constructor
  · conv_lhs => rw [← List.reverse_reverse l, ← List.takeWhile_append_dropWhile isWS l.reverse]
    rw [List.reverse_append]
    rfl
  · intro c hc
    rw [List.mem_reverse] at hc
    simpa using List.mem_takeWhile_imp hc

theorem splitWords_append_all_ws (a ws : List Char) (h : ∀ c ∈ ws, isWS c = true) :
    splitWords (a ++ ws) = splitWords a := by
  cases ws with
  | nil => simp
  | cons e ws' =>
    rw [splitWords_append_ws (h e (by simp)) a ws',
        splitWords_eq_nil_of_all_ws ws' (fun x hx => h x (by simp [hx])),
        List.append_nil]

theorem splitWords_rstrip (l : List Char) : splitWords (rstrip l) = splitWords l := by
  obtain ⟨heq, hws⟩ := rstrip_spec l
  conv_rhs => rw [heq]
  rw [splitWords_append_all_ws (rstrip l) (l.reverse.takeWhile isWS).reverse hws]

theorem splitWords_pyStrip (l : List Char) : splitWords (pyStrip l) = splitWords l := by
  rw [pyStrip, splitWords_dropWhileWS, splitWords_rstrip]

-- ## collapseWS preserves the word decomposition

theorem collapseWS_token_append {w : List Char} (h : ∀ c ∈ w, isWS c = false) :
    ∀ s : List Char, collapseWS (w ++ s) = w ++ collapseWS s := by
  induction w with
  | nil => intro s; simp
  | cons c w' ih =>
    intro s
    rw [List.cons_append, collapseWS_cons_nws (h c (by simp)),
        ih (fun x hx => h x (by simp [hx])) s, List.cons_append]

theorem dropWhile_not_ws_head (l : List Char) :
    l.dropWhile (fun d => !isWS d) = [] ∨
      ∃ e r, l.dropWhile (fun d => !isWS d) = e :: r ∧ isWS e = true := by
  have h2 := List.head?_dropWhile_not (fun d => !isWS d) l
  cases hd : l.dropWhile (fun d => !isWS d) with
  | nil => exact Or.inl rfl
  | cons e r =>
    rw [hd] at h2
    simp at h2
    exact Or.inr ⟨e, r, rfl, h2⟩

theorem splitWords_collapseWS_bounded :
    ∀ (n : Nat) (l : List Char), l.length ≤ n → splitWords (collapseWS l) = splitWords l := by
  intro n
  induction n with
  | zero =>
    intro l hl
    have : l = [] := List.length_eq_zero.mp (Nat.le_zero.mp hl)
    subst this
    rw [collapseWS_nil]
  | succ m ih =>
    intro l hl
    cases l with
    | nil => rw [collapseWS_nil]
    | cons c rest =>
      have hrest : rest.length ≤ m := by simpa using hl
      by_cases hc : isWS c
      · rw [collapseWS_cons_ws hc, splitWords_cons_ws (by decide : isWS ' ' = true),
            splitWords_cons_ws hc,
            ih (rest.dropWhile isWS) (le_trans (dropWhile_len_le isWS rest) hrest),
            splitWords_dropWhileWS]
      · have hc' : isWS c = false := Bool.eq_false_iff.mpr hc
        have htw : ∀ x ∈ rest.takeWhile (fun d => !isWS d), isWS x = false := by
          intro x hx
          have := List.mem_takeWhile_imp hx
          simpa using this
        have hsplit : rest = rest.takeWhile (fun d => !isWS d) ++ rest.dropWhile (fun d => !isWS d) :=
          (List.takeWhile_append_dropWhile _ rest).symm
        rw [collapseWS_cons_nws hc']
        conv_lhs => rw [hsplit]
        rw [collapseWS_token_append htw]
        rcases dropWhile_not_ws_head rest with hdw | ⟨e, r, hdw, hews⟩
        · rw [hdw, collapseWS_nil, List.append_nil]
          conv_rhs => rw [hsplit, hdw, List.append_nil]
        · have htok : splitWords (c :: rest.takeWhile (fun d => !isWS d)) =
              [c :: rest.takeWhile (fun d => !isWS d)] :=
            splitWords_token (by simp) (fun d hd =>
              (List.mem_cons.mp hd).elim (fun h1 => h1 ▸ hc') (fun h2 => htw d h2))
          have hlen : (r.dropWhile isWS).length ≤ m := by
            have h1 := dropWhile_len_le isWS r
            have h2 : (e :: r).length ≤ rest.length := by
              rw [← hdw]; exact dropWhile_len_le _ rest
            simp at h2
            omega
          rw [hdw, collapseWS_cons_ws hews, ← List.cons_append,
              splitWords_append_ws (by decide : isWS ' ' = true)
                (c :: rest.takeWhile (fun d => !isWS d)) _,
              htok, ih (r.dropWhile isWS) hlen, splitWords_dropWhileWS,
              splitWords_cons_nws hc', hdw, splitWords_cons_ws hews]
          simp

theorem splitWords_collapseWS (l : List Char) : splitWords (collapseWS l) = splitWords l :=
  splitWords_collapseWS_bounded l.length l le_rfl

-- ## Extraction is determined by the whitespace word decomposition

theorem extract_eq_flatten (l : List Char) :
    extract_hashtags l = ((splitWords l).map extract_hashtags).flatten := by
  induction l using splitWords.induct with
  | case1 => rw [splitWords_nil, extract_nil]; simp
  | case2 c rest hc ih =>
    rw [splitWords_cons_ws hc, extract_cons_ne (ws_ne_hash hc), ih]
  | case3 c rest hc ih =>
    have hc' : isWS c = false := Bool.eq_false_iff.mpr hc
    rw [splitWords_cons_nws hc']
    rcases dropWhile_not_ws_head rest with hdw | ⟨e, r, hdw, hews⟩
    · have hrtw : rest = rest.takeWhile (fun d => !isWS d) := by
        conv_lhs => rw [← List.takeWhile_append_dropWhile (fun d => !isWS d) rest, hdw,
                        List.append_nil]
      rw [hdw, splitWords_nil]
      conv_lhs => rw [hrtw]
      simp
    · have hsplit : rest = rest.takeWhile (fun d => !isWS d) ++ rest.dropWhile (fun d => !isWS d) :=
        (List.takeWhile_append_dropWhile _ rest).symm
      have henw : isWordChar e = false := not_isWordChar_isWS hews
      conv_lhs => rw [hsplit, hdw, ← List.cons_append]
      rw [hdw] at ih
      rw [extract_append henw (c :: rest.takeWhile (fun d => !isWS d)) r, ih, hdw]
      simp

theorem extract_congr_splitWords {a b : List Char} (h : splitWords a = splitWords b) :
    extract_hashtags a = extract_hashtags b := by
  rw [extract_eq_flatten a, extract_eq_flatten b, h]

theorem extract_pyStrip (l : List Char) : extract_hashtags (pyStrip l) = extract_hashtags l :=
  extract_congr_splitWords (splitWords_pyStrip l)

theorem extract_collapseWS (l : List Char) :
    extract_hashtags (collapseWS l) = extract_hashtags l :=
  extract_congr_splitWords (splitWords_collapseWS l)

-- ## Well-formed hashtag tokens

/-- A wellformed hashtag: `#` followed by one or more word characters. -/
def goodTag (t : List Char) : Prop :=
  ∃ w, t = '#' :: w ∧ w ≠ [] ∧ ∀ c ∈ w, isWordChar c = true

theorem extract_goodTag (l : List Char) : ∀ t ∈ extract_hashtags l, goodTag t := by
  induction l using extract_hashtags.induct with
  | case1 => rw [extract_nil]; simp
  | case2 rest hw ih => rw [extract_cons_hash_nw hw]; exact ih
  | case3 rest hw ih =>
    rw [extract_cons_hash_w hw]
    intro t ht
    rcases List.mem_cons.mp ht with h1 | h2
    · refine ⟨rest.takeWhile isWordChar, h1, ?_, ?_⟩
      · intro hnil; rw [hnil] at hw; exact hw rfl
      · intro d hd; exact List.mem_takeWhile_imp hd
    · exact ih t h2
  | case4 c rest hc ih => rw [extract_cons_ne hc]; exact ih

theorem extract_tag_cons {t : List Char} (ht : goodTag t) (rest : List Char)
    (hrest : headNotWord rest) :
    extract_hashtags (t ++ rest) = t :: extract_hashtags rest := by
  obtain ⟨w, rfl, hne, hall⟩ := ht
  have htw : (w ++ rest).takeWhile isWordChar = w := by
    cases rest with
    | nil => rw [List.append_nil]; exact takeWhile_eq_self_of_all hall
    | cons x r' =>
      have hx : isWordChar x = false := hrest
      rw [takeWhile_append_single hx w r', takeWhile_eq_self_of_all hall]
  have hdw : (w ++ rest).dropWhile isWordChar = rest := by
    cases rest with
    | nil => rw [List.append_nil]; exact dropWhile_eq_nil_of_all hall
    | cons x r' =>
      have hx : isWordChar x = false := hrest
      rw [dropWhile_append_single hx w r', dropWhile_eq_nil_of_all hall, List.nil_append]
  have hne2 : ¬ ((w ++ rest).takeWhile isWordChar).isEmpty = true := by
    rw [htw]
    cases w with
    | nil => exact absurd rfl hne
    | cons a b => simp
  rw [List.cons_append, extract_cons_hash_w hne2, htw, hdw]

/-- Extraction recovers exactly a space-joined list of wellformed hashtags. -/
theorem extract_joinSpace (ts : List (List Char)) :
    (∀ t ∈ ts, goodTag t) → extract_hashtags (joinSpace ts) = ts := by
  induction ts with
  | nil => intro h; exact extract_nil
  | cons t ts ih =>
    intro h
    cases ts with
    | nil =>
      have h0 := extract_tag_cons (h t (by simp)) [] trivial
      rw [List.append_nil, extract_nil] at h0
      exact h0
    | cons u ts' =>
      rw [show joinSpace (t :: u :: ts') = t ++ ' ' :: joinSpace (u :: ts') from rfl,
          extract_tag_cons (h t (by simp)) (' ' :: joinSpace (u :: ts'))
            (show isWordChar ' ' = false by decide),
          extract_cons_ne (by decide) (joinSpace (u :: ts')),
          ih (fun x hx => h x (by simp [hx]))]

theorem extract_joinSpace_append {c : Char} (hc : isWordChar c = false) (s : List Char)
    (hcs : extract_hashtags (c :: s) = []) (ws : List (List Char)) :
    extract_hashtags (joinSpace ws ++ c :: s) = (ws.map extract_hashtags).flatten := by
  induction ws with
  | nil => simpa using hcs
  | cons w ws ih =>
    cases ws with
    | nil =>
      rw [show joinSpace [w] = w from rfl, extract_append hc w s, hcs, List.append_nil]
      simp
    | cons u ws' =>
      rw [show joinSpace (w :: u :: ws') = w ++ ' ' :: joinSpace (u :: ws') from rfl,
          List.append_assoc, List.cons_append,
          extract_append (show isWordChar ' ' = false by decide) w
            (joinSpace (u :: ws') ++ c :: s),
          extract_cons_ne (by decide) (joinSpace (u :: ws') ++ c :: s), ih]
      simp

-- ## Character-case lemmas for the final capitalization step

theorem toNat_toUpper (c : Char) :
    (Char.toUpper c).toNat = c.toNat ∨
    ((Char.toUpper c).toNat = c.toNat - 32 ∧ 97 ≤ c.toNat ∧ c.toNat ≤ 122) := by
  unfold Char.toUpper
  by_cases h : c.toNat ≥ 97 ∧ c.toNat ≤ 122
  · right
    rw [if_pos h]
    refine ⟨?_, h.1, h.2⟩
    rw [Char.ofNat, dif_pos (Or.inl (by omega))]
    rfl
  · left; rw [if_neg h]

theorem char_toNat_inj {a b : Char} (h : a.toNat = b.toNat) : a = b := by
  have := congrArg Char.ofNat h
  rwa [Char.ofNat_toNat, Char.ofNat_toNat] at this

theorem isWS_toUpper (c : Char) : isWS (Char.toUpper c) = isWS c := by
  rcases toNat_toUpper c with h | ⟨h, h1, h2⟩
  · simp only [isWS, h]
  · have e1 : isWS (Char.toUpper c) = false := by
      simp only [isWS, decide_eq_false_iff_not]
      omega
    have e2 : isWS c = false := by
      simp only [isWS, decide_eq_false_iff_not]
      omega
    rw [e1, e2]

theorem toUpper_ne_hash {c : Char} (h : ¬ c = '#') : ¬ Char.toUpper c = '#' := by
  intro he
  have h35 : (Char.toUpper c).toNat = 35 := by rw [he]; rfl
  rcases toNat_toUpper c with h2 | ⟨h2, h3, h4⟩
  · refine h (char_toNat_inj ?_)
    have : ('#' : Char).toNat = 35 := rfl
    omega
  · omega

theorem capFirst_nil : capFirst [] = [] := rfl

theorem capFirst_cons (c : Char) (r : List Char) : capFirst (c :: r) = Char.toUpper c :: r := rfl

theorem extract_capFirst (l : List Char) :
    extract_hashtags (capFirst l) = extract_hashtags l := by
  cases l with
  | nil => rfl
  | cons c r =>
    by_cases hc : c = '#'
    · subst hc
      rw [capFirst_cons, show Char.toUpper '#' = '#' from by decide]
    · rw [capFirst_cons, extract_cons_ne (toUpper_ne_hash hc), extract_cons_ne hc]

theorem pyStrip_head (l : List Char) :
    pyStrip l = [] ∨ ∃ c r, pyStrip l = c :: r ∧ isWS c = false := by
  rw [pyStrip]
  have h2 := List.head?_dropWhile_not isWS (rstrip l)
  cases hd : (rstrip l).dropWhile isWS with
  | nil => exact Or.inl rfl
  | cons e r =>
    rw [hd] at h2
    exact Or.inr ⟨e, r, rfl, by simpa using h2⟩

/-- The final-cleanup stage of `optimize_content` (strip, capitalize, collapse)
preserves the word count. -/
theorem wordCount_finalize (x : List Char) :
    wordCount (collapseWS (capFirst (pyStrip x))) = wordCount x := by
  simp only [wordCount, splitWords_collapseWS]
  rcases pyStrip_head x with h | ⟨c, r, h, hc⟩
  · rw [h, capFirst_nil, ← splitWords_pyStrip x, h]
  · rw [h, capFirst_cons, ← splitWords_pyStrip x, h,
        splitWords_cons_nws (by rw [isWS_toUpper]; exact hc), splitWords_cons_nws hc]
    simp

/-- The final-cleanup stage of `optimize_content` preserves the hashtag list. -/
theorem extract_finalize (x : List Char) :
    extract_hashtags (collapseWS (capFirst (pyStrip x))) = extract_hashtags x := by
  rw [extract_collapseWS, extract_capFirst, extract_pyStrip]

-- ## Word counts of joins, truncation, padding

theorem splitWords_joinSpace_append (s : List Char) (hs : ∀ c ∈ s, isWS c = false) :
    ∀ ws : List (List Char), ws ≠ [] →
      (∀ w ∈ ws, w ≠ [] ∧ ∀ c ∈ w, isWS c = false) →
      (splitWords (joinSpace ws ++ s)).length = ws.length := by
  intro ws
  induction ws with
  | nil => intro hne; exact absurd rfl hne
  | cons w ws ih =>
    intro hne hws
    obtain ⟨hw1, hw2⟩ := hws w (by simp)
    cases ws with
    | nil =>
      have htok : splitWords (w ++ s) = [w ++ s] := by
        refine splitWords_token ?_ ?_
        · simp [hw1]
        · intro c hcm
          rcases List.mem_append.mp hcm with h1 | h2
          · exact hw2 c h1
          · exact hs c h2
      rw [show joinSpace [w] = w from rfl, htok]
      simp
    | cons u ws' =>
      rw [show joinSpace (w :: u :: ws') = w ++ ' ' :: joinSpace (u :: ws') from rfl,
          List.append_assoc, List.cons_append,
          splitWords_append_ws (by decide : isWS ' ' = true) w (joinSpace (u :: ws') ++ s),
          splitWords_token hw1 hw2, List.length_append,
          ih (by simp) (fun x hx => hws x (by simp [hx]))]
      simp
      omega

theorem wordCount_append_ws_single (t p : List Char) :
    wordCount (t ++ ' ' :: p) = wordCount t + wordCount p := by
  rw [wordCount, splitWords_append_ws (by decide : isWS ' ' = true) t p, List.length_append,
      wordCount, wordCount]

theorem wordCount_pyStrip (l : List Char) : wordCount (pyStrip l) = wordCount l := by
  rw [wordCount, splitWords_pyStrip, wordCount]

theorem wordCount_pad_tail : wordCount (joinSpace (TRENDING_HASHTAGS.take 2)) = 2 := by
  simp [TRENDING_HASHTAGS, joinSpace, wordCount, splitWords, isWS]

/-- Word count of the output of the length clamp, in all three cases. -/
theorem wordCount_truncate_or_pad (t : List Char) (mn mx : Nat) (hmx : 0 < mx) :
    wordCount (truncate_or_pad_words t mn mx) =
      if mx < wordCount t then mx
      else if wordCount t < mn then wordCount t + 2
      else wordCount t := by
  rw [truncate_or_pad_words]
  by_cases h1 : mx < (splitWords t).length
  · have hwc : mx < wordCount t := h1
    rw [if_pos h1, if_pos hwc, wordCount,
        splitWords_joinSpace_append ("...".toList) (by decide) ((splitWords t).take mx)
          (by
            intro hnil
            have hlen := congrArg List.length hnil
            rw [List.length_take] at hlen
            simp only [List.length_nil, Nat.min_eq_zero_iff] at hlen
            rcases hlen with h | h <;> omega)
          (fun w hw => splitWords_shape t w (List.mem_of_mem_take hw)),
        List.length_take]
    omega
  · rw [if_neg h1, if_neg (show ¬ mx < wordCount t from h1)]
    by_cases h2 : (splitWords t).length < mn
    · have hwc2 : wordCount t < mn := h2
      rw [if_pos h2, if_pos hwc2, wordCount, splitWords_pyStrip,
          splitWords_append_ws (by decide : isWS ' ' = true) t
            (joinSpace (TRENDING_HASHTAGS.take 2)),
          List.length_append]
      have := wordCount_pad_tail
      rw [wordCount] at this
      rw [this, wordCount]
    · rw [if_neg h2, if_neg (show ¬ wordCount t < mn from h2)]

-- ## Hashtag counts through the pipeline stages

theorem extract_truncated (t : List Char) (mx : Nat) :
    extract_hashtags (joinSpace ((splitWords t).take mx) ++ "...".toList) =
      (((splitWords t).take mx).map extract_hashtags).flatten := by
  rw [show "...".toList = '.' :: '.' :: '.' :: [] from rfl]
  exact extract_joinSpace_append (by decide) ['.', '.']
    (extract_eq_nil_of_no_hash (by decide)) ((splitWords t).take mx)

theorem hashtagCount_truncate_le (t : List Char) (mx : Nat) :
    hashtagCount (joinSpace ((splitWords t).take mx) ++ "...".toList) ≤ hashtagCount t := by
  rw [hashtagCount, hashtagCount, extract_truncated, extract_eq_flatten t]
  conv_rhs => rw [← List.take_append_drop mx (splitWords t)]
  rw [List.map_append, List.flatten_append, List.length_append]
  omega

/-- When the cap binds, `limit_hashtags` leaves exactly the first `m` extracted
hashtags in the text, in order, and no others. -/
theorem extract_limit_hashtags (t : List Char) (m : Nat)
    (h : m < (extract_hashtags t).length) :
    extract_hashtags (limit_hashtags t m) = (extract_hashtags t).take m := by
  simp only [limit_hashtags]
  rw [if_neg (by omega), ite_self, extract_pyStrip, List.append_assoc, List.singleton_append,
      extract_append (by decide : isWordChar ' ' = false) (pyStrip (removeHashtags t))
        (joinSpace ((extract_hashtags t).take m)),
      extract_pyStrip, extract_remove, List.nil_append,
      extract_cons_ne (by decide) (joinSpace ((extract_hashtags t).take m)),
      extract_joinSpace ((extract_hashtags t).take m)
        (fun x hx => extract_goodTag t x (List.mem_of_mem_take hx))]

theorem hashtagCount_limit (t : List Char) (m : Nat) :
    hashtagCount (limit_hashtags t m) = min m (hashtagCount t) := by
  by_cases h : (extract_hashtags t).length ≤ m
  · simp only [limit_hashtags, hashtagCount]
    rw [if_pos h]
    omega
  · rw [hashtagCount, extract_limit_hashtags t m (by omega), List.length_take, hashtagCount]

-- ## The keyword-hashtag loop

theorem addTagsLoop_length (ex : List (List Char)) (m : Nat) :
    ∀ (ks acc : List (List Char)), acc.length < m →
      (addTagsLoop ex m ks acc).length ≤ m := by
  intro ks
  induction ks with
  | nil =>
    intro acc h
    rw [addTagsLoop]
    omega
  | cons k ks ih =>
    intro acc h
    rw [addTagsLoop]
    by_cases hmem : pyLower (tagOfKeyword k) ∈ ex ∨ pyLower (tagOfKeyword k) ∈ acc.map pyLower
    · rw [if_pos hmem, if_neg (by omega)]
      exact ih acc h
    · rw [if_neg hmem]
      by_cases hbr : m ≤ (acc ++ [tagOfKeyword k]).length
      · rw [if_pos hbr]
        simp at hbr ⊢
        omega
      · rw [if_neg hbr]
        refine ih (acc ++ [tagOfKeyword k]) ?_
        simp at hbr ⊢
        omega

theorem addTagsLoop_mem (ex : List (List Char)) (m : Nat) :
    ∀ (ks acc : List (List Char)), ∀ x ∈ addTagsLoop ex m ks acc,
      x ∈ acc ∨ ∃ k ∈ ks, x = tagOfKeyword k := by
  intro ks
  induction ks with
  | nil =>
    intro acc x hx
    rw [addTagsLoop] at hx
    exact Or.inl hx
  | cons k ks ih =>
    intro acc x hx
    rw [addTagsLoop] at hx
    by_cases hmem : pyLower (tagOfKeyword k) ∈ ex ∨ pyLower (tagOfKeyword k) ∈ acc.map pyLower
    · rw [if_pos hmem] at hx
      by_cases hbr : m ≤ acc.length
      · rw [if_pos hbr] at hx
        exact Or.inl hx
      · rw [if_neg hbr] at hx
        rcases ih acc x hx with h1 | ⟨k', hk', he⟩
        · exact Or.inl h1
        · exact Or.inr ⟨k', by simp [hk'], he⟩
    · rw [if_neg hmem] at hx
      by_cases hbr : m ≤ (acc ++ [tagOfKeyword k]).length
      · rw [if_pos hbr] at hx
        rcases List.mem_append.mp hx with h1 | h2
        · exact Or.inl h1
        · exact Or.inr ⟨k, by simp, by simpa using h2⟩
      · rw [if_neg hbr] at hx
        rcases ih (acc ++ [tagOfKeyword k]) x hx with h1 | ⟨k', hk', he⟩
        · rcases List.mem_append.mp h1 with h3 | h4
          · exact Or.inl h3
          · exact Or.inr ⟨k, by simp, by simpa using h4⟩
        · exact Or.inr ⟨k', by simp [hk'], he⟩

theorem goodTag_tagOfKeyword {k : List Char} (h : k.filter isWordChar ≠ []) :
    goodTag (tagOfKeyword k) :=
  ⟨k.filter isWordChar, rfl, h, fun c hc => (List.mem_filter.mp hc).2⟩

theorem goodTag_trending : ∀ k ∈ TRENDING_KEYWORDS, goodTag (tagOfKeyword k) := by
  intro k hk
  apply goodTag_tagOfKeyword
  simp only [TRENDING_KEYWORDS, List.mem_cons, List.not_mem_nil, or_false] at hk
  rcases hk with h | h | h | h | h | h <;> subst h <;> decide

/-- `ensure_hashtags_from_keywords` appends exactly the loop's new tags to the
extracted-hashtag sequence. -/
theorem extract_ensure_hashtags (t : List Char) (kws : List (List Char)) (m : Nat)
    (hkw : ∀ k ∈ kws, goodTag (tagOfKeyword k)) :
    extract_hashtags (ensure_hashtags_from_keywords t kws m) =
      extract_hashtags t ++ addTagsLoop ((extract_hashtags t).map pyLower) m kws [] := by
  simp only [ensure_hashtags_from_keywords]
  by_cases hemp : (addTagsLoop ((extract_hashtags t).map pyLower) m kws []).isEmpty
  · rw [if_pos hemp]
    rw [List.isEmpty_iff] at hemp
    rw [hemp, List.append_nil]
  · rw [if_neg hemp]
    have hgood : ∀ x ∈ addTagsLoop ((extract_hashtags t).map pyLower) m kws [], goodTag x := by
      intro x hx
      rcases addTagsLoop_mem ((extract_hashtags t).map pyLower) m kws [] x hx with h1 | ⟨k, hk, he⟩
      · simp at h1
      · exact he ▸ hkw k hk
    by_cases hp : endsPunct t
    · rw [if_pos hp, extract_pyStrip, List.append_assoc, List.singleton_append,
          extract_append (by decide : isWordChar ' ' = false) t
            (joinSpace (addTagsLoop ((extract_hashtags t).map pyLower) m kws [])),
          extract_cons_ne (by decide), extract_joinSpace _ hgood]
    · rw [if_neg hp, extract_pyStrip, List.append_assoc,
          show ([' ', '·', ' '] : List Char) ++
              joinSpace (addTagsLoop ((extract_hashtags t).map pyLower) m kws []) =
            ' ' :: '·' :: ' ' ::
              joinSpace (addTagsLoop ((extract_hashtags t).map pyLower) m kws []) from rfl,
          extract_append (by decide : isWordChar ' ' = false) t
            ('·' :: ' ' :: joinSpace (addTagsLoop ((extract_hashtags t).map pyLower) m kws [])),
          extract_cons_ne (by decide), extract_cons_ne (by decide), extract_cons_ne (by decide),
          extract_joinSpace _ hgood]

-- ## Hashtag bound for the pre-clamp pipeline

theorem hashtagCount_step5 (u : List Char) (h4 : hashtagCount u ≤ MAX_HASHTAGS) :
    hashtagCount
      (if (extract_hashtags u).length < MAX_HASHTAGS then
        ensure_hashtags_from_keywords u TRENDING_KEYWORDS
          (MAX_HASHTAGS - (extract_hashtags u).length)
      else u) ≤ MAX_HASHTAGS := by
  by_cases hlt : (extract_hashtags u).length < MAX_HASHTAGS
  · rw [if_pos hlt, hashtagCount,
        extract_ensure_hashtags u TRENDING_KEYWORDS (MAX_HASHTAGS - (extract_hashtags u).length)
          goodTag_trending,
        List.length_append]
    have hloop := addTagsLoop_length ((extract_hashtags u).map pyLower)
      (MAX_HASHTAGS - (extract_hashtags u).length) TRENDING_KEYWORDS []
      (by simp [MAX_HASHTAGS] at hlt ⊢; omega)
    omega
  · rw [if_neg hlt]
    exact h4

theorem hashtagCount_preClamp (blobCorrect : List Char → List Char) (text : List Char) :
    hashtagCount (optimizePreClamp blobCorrect text) ≤ MAX_HASHTAGS := by
  simp only [optimizePreClamp]
  refine hashtagCount_step5 _ ?_
  rw [hashtagCount_limit]
  simp [MAX_HASHTAGS]

theorem wordCount_optimize_eq_clamp (blobCorrect : List Char → List Char) (text : List Char) :
    wordCount (optimize_content blobCorrect text) =
      wordCount (truncate_or_pad_words (optimizePreClamp blobCorrect text) MIN_WORDS MAX_WORDS) := by
  simp only [optimize_content]
  rw [wordCount_finalize]

/-- C2 (amended): for every grammar corrector and every string input, the word
count of `optimize_content`'s output never exceeds `MAX_WORDS = 100`: truncation
produces exactly 100 words, padding adds two words to a below-minimum text, and
the final cleanup preserves the word count.  (The claimed lower bound of 50 is
refuted separately: padding adds only two hashtags.) -/
theorem optimize_content_wordCount_le_max (blobCorrect : List Char → List Char)
    (text : List Char) : wordCount (optimize_content blobCorrect text) ≤ MAX_WORDS := by
  rw [wordCount_optimize_eq_clamp,
      wordCount_truncate_or_pad (optimizePreClamp blobCorrect text) MIN_WORDS MAX_WORDS
        (by decide)]
  by_cases h1 : MAX_WORDS < wordCount (optimizePreClamp blobCorrect text)
  · rw [if_pos h1]
  · rw [if_neg h1]
    by_cases h2 : wordCount (optimizePreClamp blobCorrect text) < MIN_WORDS
    · rw [if_pos h2]
      simp only [MIN_WORDS, MAX_WORDS] at h2 ⊢
      omega
    · rw [if_neg h2]
      omega

/-- C2 (counterexample): the claim's word-count lower bound fails on the code:
on input `""` the pipeline output is
`"Learn more and join the movement! #AI #Automation #Digital #AI #Marketing"`,
which has 11 words, far below `MIN_WORDS = 50` (padding appends only the first
two trending hashtags, it does not pad up to the minimum). -/
theorem optimize_content_short_output_counterexample :
    wordCount (optimize_content (fun l => l) ("".toList)) = 11 ∧ 11 < MIN_WORDS := by
  constructor
  · simp [optimize_content, optimizePreClamp, clean_text, pyStrip, rstrip, collapseWS,
          grammar_correction, contains_call_to_action, CTA_PHRASES, pyIn, pyLower,
          List.isPrefixOf, limit_hashtags, extract_hashtags, removeHashtags, endsPunct,
          ensure_hashtags_from_keywords, addTagsLoop, tagOfKeyword, TRENDING_KEYWORDS,
          TRENDING_HASHTAGS, MAX_HASHTAGS, MIN_WORDS, MAX_WORDS, truncate_or_pad_words,
          joinSpace, capFirst, wordCount, splitWords, isWS, isWordChar]
  · decide

/-- C3: the number of `#\w+` hashtags in `optimize_content`'s output never
exceeds `MAX_HASHTAGS = 3` whenever the minimum-word padding step does not fire
(i.e. the text entering the length clamp has at least `MIN_WORDS` words): the
cap step leaves at most 3, the keyword step tops up to at most 3, truncation
only removes hashtags, and the final cleanup preserves them. -/
theorem optimize_content_hashtagCount_le_max (blobCorrect : List Char → List Char)
    (text : List Char)
    (hpad : MIN_WORDS ≤ wordCount (optimizePreClamp blobCorrect text)) :
    hashtagCount (optimize_content blobCorrect text) ≤ MAX_HASHTAGS := by
  simp only [optimize_content]
  rw [hashtagCount, extract_finalize, ← hashtagCount]
  simp only [truncate_or_pad_words]
  have hpad' : MIN_WORDS ≤ (splitWords (optimizePreClamp blobCorrect text)).length := hpad
  by_cases h1 : MAX_WORDS < (splitWords (optimizePreClamp blobCorrect text)).length
  · rw [if_pos h1]
    exact le_trans (hashtagCount_truncate_le (optimizePreClamp blobCorrect text) MAX_WORDS)
      (hashtagCount_preClamp blobCorrect text)
  · rw [if_neg h1, if_neg (by omega)]
    exact hashtagCount_preClamp blobCorrect text

/-- A 50-word input containing a call to action and no hashtags; on it the
padding step of `optimize_content` does not fire. -/
def fiftyWordText : List Char :=
  "follow a a a a a a a a a a a a a a a a a a a a a a a a a a a a a a a a a a a a a a a a a a a a a a a a a".toList

set_option maxHeartbeats 2000000 in
/-- C3 (witness): on a concrete 50-word input the padding step does not fire
(the pre-clamp text has 54 words) and the output carries at most 3 hashtags. -/
theorem optimize_content_hashtagCount_le_max_witness :
    MIN_WORDS ≤ wordCount (optimizePreClamp (fun l => l) fiftyWordText) ∧
      hashtagCount (optimize_content (fun l => l) fiftyWordText) ≤ MAX_HASHTAGS := by
  have h : MIN_WORDS ≤ wordCount (optimizePreClamp (fun l => l) fiftyWordText) := by
    simp [fiftyWordText, optimizePreClamp, clean_text, pyStrip, rstrip, collapseWS,
          grammar_correction, contains_call_to_action, CTA_PHRASES, pyIn, pyLower,
          List.isPrefixOf, limit_hashtags, extract_hashtags, removeHashtags, endsPunct,
          ensure_hashtags_from_keywords, addTagsLoop, tagOfKeyword, TRENDING_KEYWORDS,
          MAX_HASHTAGS, MIN_WORDS, joinSpace, wordCount, splitWords, isWS, isWordChar]
  exact ⟨h, optimize_content_hashtagCount_le_max (fun l => l) fiftyWordText h⟩

theorem limit_hashtags_of_le (t : List Char) (m : Nat)
    (h : (extract_hashtags t).length ≤ m) : limit_hashtags t m = t := by
  simp only [limit_hashtags]
  rw [if_pos h]

/-- C4: `limit_hashtags` leaves a text with at most `m` hashtags unchanged; on a
text with more than `m`, it returns the hashtag-stripped trimmed body followed
by a space and the first `m` originally extracted hashtags, space-joined — so
the result's hashtags are exactly the first `m` originals, in order, and no
others. -/
theorem limit_hashtags_spec (text : List Char) (m : Nat) :
    ((extract_hashtags text).length ≤ m → limit_hashtags text m = text) ∧
    (m < (extract_hashtags text).length →
      limit_hashtags text m =
        pyStrip (pyStrip (removeHashtags text) ++ [' '] ++
          joinSpace ((extract_hashtags text).take m)) ∧
      extract_hashtags (limit_hashtags text m) = (extract_hashtags text).take m) := by
  refine ⟨limit_hashtags_of_le text m, fun h => ⟨?_, extract_limit_hashtags text m h⟩⟩
  simp only [limit_hashtags]
  rw [if_neg (by omega), ite_self]

/-- The 5-hashtag example text of the specification's testable property. -/
def fiveTagText : List Char := "hi #a #b #c #d #e".toList

set_option maxHeartbeats 1000000 in
/-- C4 (witness): on a text with 5 distinct hashtags and cap 3, the output
contains exactly the first 3, in original order, and no others; a text under
the cap is returned unchanged. -/
theorem limit_hashtags_spec_witness :
    3 < (extract_hashtags fiveTagText).length ∧
    extract_hashtags (limit_hashtags fiveTagText 3) =
      ["#a".toList, "#b".toList, "#c".toList] ∧
    (extract_hashtags ("hi #a".toList)).length ≤ 3 ∧
    limit_hashtags ("hi #a".toList) 3 = "hi #a".toList := by
  have h5 : extract_hashtags fiveTagText =
      ["#a".toList, "#b".toList, "#c".toList, "#d".toList, "#e".toList] := by
    simp [fiveTagText, extract_hashtags, isWordChar]
  have h3 : 3 < (extract_hashtags fiveTagText).length := by rw [h5]; simp
  have h1 : (extract_hashtags ("hi #a".toList)).length ≤ 3 := by
    simp [extract_hashtags, isWordChar]
  refine ⟨h3, ?_, h1, (limit_hashtags_spec ("hi #a".toList) 3).1 h1⟩
  rw [((limit_hashtags_spec fiveTagText 3).2 h3).2, h5]
  rfl

/-- C9: `limit_hashtags` is idempotent for every text and every cap: an input
at or under the cap is returned unchanged, and an input over the cap is
rewritten to a text carrying exactly `m` hashtags, which a second application
leaves unchanged. -/
theorem limit_hashtags_idempotent (text : List Char) (m : Nat) :
    limit_hashtags (limit_hashtags text m) m = limit_hashtags text m := by
  by_cases h : (extract_hashtags text).length ≤ m
  · rw [limit_hashtags_of_le text m h]
    exact limit_hashtags_of_le text m h
  · refine limit_hashtags_of_le (limit_hashtags text m) m ?_
    rw [extract_limit_hashtags text m (by omega), List.length_take]
    omega

-- ## C5: the lexicon sentiment analyzer

theorem analyze_sentiment_example :
    analyze_sentiment ("great great bad".toList) = (1/3, "positive") := by
  have htok : lexTokens ("great great bad".toList) =
      ["great".toList, "great".toList, "bad".toList] := by
    simp [lexTokens, pyLower, Char.toLower, splitWords, isWS]
  have hpos : posCount ("great great bad".toList) = 2 := by
    rw [posCount, htok]
    simp [POSITIVE_WORDS]
  have hneg : negCount ("great great bad".toList) = 1 := by
    rw [negCount, htok]
    simp [NEGATIVE_WORDS]
  rw [analyze_sentiment, htok, hpos, hneg]
  norm_num

/-- C5: the lexicon sentiment analyzer lowercases and whitespace-tokenizes its
input, counts positive and negative lexicon hits, returns score
`(pos − neg)/(pos + neg)` when `pos + neg > 0` and score `0` otherwise (also
for an empty token list); the label is `"positive"` exactly when the score
exceeds `0.2`, `"negative"` exactly when it is below `−0.2`, and `"neutral"`
otherwise — in particular `"great great bad"` scores `1/3` with label
`"positive"`, and a score of exactly `±0.2` is labelled `"neutral"`. -/
theorem analyze_sentiment_spec (text : List Char) :
    ((analyze_sentiment text).1 =
      if lexTokens text = [] ∨ posCount text + negCount text = 0 then 0
      else ((posCount text : ℚ) - (negCount text : ℚ)) /
            ((posCount text : ℚ) + (negCount text : ℚ))) ∧
    ((analyze_sentiment text).2 = "positive" ↔ (analyze_sentiment text).1 > 0.2) ∧
    ((analyze_sentiment text).2 = "negative" ↔ (analyze_sentiment text).1 < -0.2) ∧
    ((analyze_sentiment text).2 = "neutral" ↔
      ¬ (analyze_sentiment text).1 > 0.2 ∧ ¬ (analyze_sentiment text).1 < -0.2) ∧
    analyze_sentiment ("great great bad".toList) = (1/3, "positive") := by
  by_cases he : (lexTokens text).isEmpty
  · have ha : analyze_sentiment text = (0, "neutral") := by
      rw [analyze_sentiment, if_pos he]
    have hcond : lexTokens text = [] ∨ posCount text + negCount text = 0 :=
      Or.inl (List.isEmpty_iff.mp he)
    rw [ha, if_pos hcond]
    refine ⟨rfl, by norm_num <;> decide, by norm_num <;> decide, by norm_num,
      analyze_sentiment_example⟩
  · by_cases hz : posCount text = 0 ∧ negCount text = 0
    · have ha : analyze_sentiment text = (0, "neutral") := by
        rw [analyze_sentiment, if_neg he, if_pos hz]
      have hcond : lexTokens text = [] ∨ posCount text + negCount text = 0 :=
        Or.inr (by omega)
      rw [ha, if_pos hcond]
      refine ⟨rfl, by norm_num <;> decide, by norm_num <;> decide, by norm_num,
        analyze_sentiment_example⟩
    · have hcond : ¬ (lexTokens text = [] ∨ posCount text + negCount text = 0) := by
        rintro (h1 | h2)
        · exact he (List.isEmpty_iff.mpr h1)
        · exact hz ⟨by omega, by omega⟩
      rw [if_neg hcond]
      set S : ℚ := ((posCount text : ℚ) - (negCount text : ℚ)) /
        ((posCount text : ℚ) + (negCount text : ℚ)) with hS
      by_cases hgt : S > 0.2
      · have ha : analyze_sentiment text = (S, "positive") := by
          rw [analyze_sentiment, if_neg he, if_neg hz]
          simp only [← hS]
          rw [if_pos hgt]
        rw [ha]
        refine ⟨rfl, by simp [hgt], ?_, ?_, analyze_sentiment_example⟩
        · constructor
          · intro h; simp at h
          · intro h; exact absurd h (by norm_num; linarith)
        · constructor
          · intro h; simp at h
          · intro h; exact absurd hgt h.1
      · by_cases hlt : S < -0.2
        · have ha : analyze_sentiment text = (S, "negative") := by
            rw [analyze_sentiment, if_neg he, if_neg hz]
            simp only [← hS]
            rw [if_neg hgt, if_pos hlt]
          rw [ha]
          refine ⟨rfl, ?_, by simp [hlt], ?_, analyze_sentiment_example⟩
          · constructor
            · intro h; simp at h
            · intro h; exact absurd h hgt
          · constructor
            · intro h; simp at h
            · intro h; exact absurd hlt h.2
        · have ha : analyze_sentiment text = (S, "neutral") := by
            rw [analyze_sentiment, if_neg he, if_neg hz]
            simp only [← hS]
            rw [if_neg hgt, if_neg hlt]
          rw [ha]
          refine ⟨rfl, ?_, ?_, by simp [hgt, hlt], analyze_sentiment_example⟩
          · constructor
            · intro h; simp at h
            · intro h; exact absurd h hgt
          · constructor
            · intro h; simp at h
            · intro h; exact absurd h hlt

-- ## C1: the A/B evaluator

/-- C1: for every test id and pair of counter groups, `evaluate_ab_test`
computes each group's CTR as clicks over `max 1 impressions` and engagement as
(likes+comments) over `max 1 impressions`, and applies the tie-break chain:
strictly higher CTR wins with reason "higher CTR"; with equal CTRs, strictly
higher engagement wins with reason "higher engagement"; otherwise the result is
a tie with reason "similar performance".  In particular
A = (1000,120,180,25) versus B = (1000,110,160,30) gives winner "A" with
reason "higher CTR". -/
theorem evaluate_ab_test_spec (ab_test_id : String) (A B : Counters) :
    ((evaluate_ab_test ab_test_id A B).a_ctr = ctrOf A ∧
     (evaluate_ab_test ab_test_id A B).a_eng = engOf A ∧
     (evaluate_ab_test ab_test_id A B).b_ctr = ctrOf B ∧
     (evaluate_ab_test ab_test_id A B).b_eng = engOf B) ∧
    ctrOf A = (A.clicks : ℚ) / ((max 1 A.impressions : ℤ) : ℚ) ∧
    engOf A = ((A.likes : ℚ) + (A.comments : ℚ)) / ((max 1 A.impressions : ℤ) : ℚ) ∧
    (ctrOf A > ctrOf B →
      (evaluate_ab_test ab_test_id A B).winner = "A" ∧
      (evaluate_ab_test ab_test_id A B).reason = "higher CTR") ∧
    (ctrOf B > ctrOf A →
      (evaluate_ab_test ab_test_id A B).winner = "B" ∧
      (evaluate_ab_test ab_test_id A B).reason = "higher CTR") ∧
    (ctrOf A = ctrOf B → engOf A > engOf B →
      (evaluate_ab_test ab_test_id A B).winner = "A" ∧
      (evaluate_ab_test ab_test_id A B).reason = "higher engagement") ∧
    (ctrOf A = ctrOf B → engOf B > engOf A →
      (evaluate_ab_test ab_test_id A B).winner = "B" ∧
      (evaluate_ab_test ab_test_id A B).reason = "higher engagement") ∧
    (ctrOf A = ctrOf B → engOf A = engOf B →
      (evaluate_ab_test ab_test_id A B).winner = "tie" ∧
      (evaluate_ab_test ab_test_id A B).reason = "similar performance") ∧
    ((evaluate_ab_test ab_test_id ⟨1000, 120, 180, 25⟩ ⟨1000, 110, 160, 30⟩).winner = "A" ∧
     (evaluate_ab_test ab_test_id ⟨1000, 120, 180, 25⟩ ⟨1000, 110, 160, 30⟩).reason =
       "higher CTR") := by
  refine ⟨?_, rfl, rfl, ?_, ?_, ?_, ?_, ?_, ?_⟩
  · simp only [evaluate_ab_test]
    split
    · exact ⟨rfl, rfl, rfl, rfl⟩
    · split
      · exact ⟨rfl, rfl, rfl, rfl⟩
      · split
        · exact ⟨rfl, rfl, rfl, rfl⟩
        · split
          · exact ⟨rfl, rfl, rfl, rfl⟩
          · exact ⟨rfl, rfl, rfl, rfl⟩
  · intro h
    simp only [evaluate_ab_test]
    rw [if_pos h]
    exact ⟨rfl, rfl⟩
  · intro h
    simp only [evaluate_ab_test]
    rw [if_neg (lt_asymm h), if_pos h]
    exact ⟨rfl, rfl⟩
  · intro he h
    simp only [evaluate_ab_test]
    rw [if_neg (by rw [he]; exact lt_irrefl _), if_neg (by rw [he]; exact lt_irrefl _),
        if_pos h]
    exact ⟨rfl, rfl⟩
  · intro he h
    simp only [evaluate_ab_test]
    rw [if_neg (by rw [he]; exact lt_irrefl _), if_neg (by rw [he]; exact lt_irrefl _),
        if_neg (lt_asymm h), if_pos h]
    exact ⟨rfl, rfl⟩
  · intro he hee
    simp only [evaluate_ab_test]
    rw [if_neg (by rw [he]; exact lt_irrefl _), if_neg (by rw [he]; exact lt_irrefl _),
        if_neg (by rw [hee]; exact lt_irrefl _), if_neg (by rw [hee]; exact lt_irrefl _)]
    exact ⟨rfl, rfl⟩
  · have hgt : ctrOf ⟨1000, 120, 180, 25⟩ > ctrOf ⟨1000, 110, 160, 30⟩ := by
      simp only [ctrOf]
      norm_num
    simp only [evaluate_ab_test]
    rw [if_pos hgt]
    exact ⟨rfl, rfl⟩

/-- C1 (witness): concrete instantiations discharging the tie-break
hypotheses: equal CTRs with higher engagement for A yield winner "A" with
reason "higher engagement", and identical counters yield a tie. -/
theorem evaluate_ab_test_spec_witness :
    ctrOf ⟨100, 10, 20, 0⟩ = ctrOf ⟨100, 10, 15, 0⟩ ∧
    engOf ⟨100, 10, 20, 0⟩ > engOf ⟨100, 10, 15, 0⟩ ∧
    (evaluate_ab_test "campaign_01" ⟨100, 10, 20, 0⟩ ⟨100, 10, 15, 0⟩).winner = "A" ∧
    (evaluate_ab_test "campaign_01" ⟨100, 10, 20, 0⟩ ⟨100, 10, 15, 0⟩).reason =
      "higher engagement" ∧
    (evaluate_ab_test "campaign_01" ⟨50, 5, 6, 1⟩ ⟨50, 5, 6, 1⟩).winner = "tie" := by
  have he : ctrOf ⟨100, 10, 20, 0⟩ = ctrOf ⟨100, 10, 15, 0⟩ := by
    simp only [ctrOf]
  have hg : engOf ⟨100, 10, 20, 0⟩ > engOf ⟨100, 10, 15, 0⟩ := by
    simp only [engOf]
    norm_num
  obtain ⟨hw, hr⟩ :=
    (evaluate_ab_test_spec "campaign_01" ⟨100, 10, 20, 0⟩ ⟨100, 10, 15, 0⟩).2.2.2.2.2.1 he hg
  have ht :=
    (evaluate_ab_test_spec "campaign_01" ⟨50, 5, 6, 1⟩ ⟨50, 5, 6, 1⟩).2.2.2.2.2.2.2.1 rfl rfl
  exact ⟨he, hg, hw, hr, ht.1⟩

-- ## C6 and C10: the metrics recorder

/-- C6: `append_metrics_row` clamps impressions to at least 1 before dividing,
so no division error can occur (the denominator is positive); the returned ctr
is `clicks / max 1 impressions` and the returned engagement rate is
`(likes + comments) / max 1 impressions`; with impressions 0 and clicks 5 the
returned ctr is 5. -/
theorem append_metrics_row_spec (ts : String) (post_id variant text : List Char)
    (impressions clicks likes comments : ℤ) (ss : ℚ) (sl : String)
    (abt abw abr : Option (List Char)) :
    (0 : ℚ) < ((max 1 impressions : ℤ) : ℚ) ∧
    (append_metrics_row ts post_id variant text impressions clicks likes comments
        ss sl abt abw abr).2.1 = (clicks : ℚ) / ((max 1 impressions : ℤ) : ℚ) ∧
    (append_metrics_row ts post_id variant text impressions clicks likes comments
        ss sl abt abw abr).2.2 =
      ((likes : ℚ) + (comments : ℚ)) / ((max 1 impressions : ℤ) : ℚ) ∧
    (append_metrics_row ts post_id variant text 0 5 likes comments
        ss sl abt abw abr).2.1 = 5 := by
  refine ⟨?_, rfl, rfl, ?_⟩
  · have h1 : (1 : ℤ) ≤ max 1 impressions := le_max_left 1 impressions
    have : (0 : ℤ) < max 1 impressions := by omega
    exact_mod_cast this
  · simp only [append_metrics_row]
    norm_num

/-- C10: the row written by `append_metrics_row` stores the clamped
impressions `max 1 impressions` (so impressions 0 is stored as 1), and its
stored ctr and engagement rate are the 4-decimal roundings of the ratios
computed over the stored impressions as denominator. -/
theorem append_metrics_row_stored_spec (ts : String) (post_id variant text : List Char)
    (impressions clicks likes comments : ℤ) (ss : ℚ) (sl : String)
    (abt abw abr : Option (List Char)) :
    (append_metrics_row ts post_id variant text impressions clicks likes comments
        ss sl abt abw abr).1.impressions = max 1 impressions ∧
    (append_metrics_row ts post_id variant text impressions clicks likes comments
        ss sl abt abw abr).1.clicks = clicks ∧
    (append_metrics_row ts post_id variant text impressions clicks likes comments
        ss sl abt abw abr).1.ctr =
      pyRound4 (((append_metrics_row ts post_id variant text impressions clicks likes
          comments ss sl abt abw abr).1.clicks : ℚ) /
        ((append_metrics_row ts post_id variant text impressions clicks likes comments
          ss sl abt abw abr).1.impressions : ℚ)) ∧
    (append_metrics_row ts post_id variant text impressions clicks likes comments
        ss sl abt abw abr).1.engagement_rate =
      pyRound4 ((((append_metrics_row ts post_id variant text impressions clicks likes
          comments ss sl abt abw abr).1.likes : ℚ) +
        ((append_metrics_row ts post_id variant text impressions clicks likes comments
          ss sl abt abw abr).1.comments : ℚ)) /
        ((append_metrics_row ts post_id variant text impressions clicks likes comments
          ss sl abt abw abr).1.impressions : ℚ)) ∧
    (append_metrics_row ts post_id variant text 0 clicks likes comments
        ss sl abt abw abr).1.impressions = 1 := by
  refine ⟨rfl, rfl, rfl, rfl, ?_⟩
  simp only [append_metrics_row]
  decide

-- ## C7 and C8: the alert policy

/-- C7: `maybe_send_alert` fires the high-performing alert exactly when
`ctr ≥ 0.10` or `eng ≥ 0.15`; otherwise it fires the low-performance alert
exactly when `ctr ≤ 0.02` and the sentiment is negative; otherwise it fires
nothing.  The three example triples behave as the specification states. -/
theorem maybe_send_alert_spec (ctr eng sentiment : ℚ) :
    (maybe_send_alert ctr eng sentiment = some AlertMsg.highPerforming ↔
      ctr ≥ HIGH_CTR ∨ eng ≥ HIGH_ENG) ∧
    (maybe_send_alert ctr eng sentiment = some AlertMsg.lowPerformance ↔
      ¬(ctr ≥ HIGH_CTR ∨ eng ≥ HIGH_ENG) ∧ (ctr ≤ LOW_CTR ∧ sentiment < 0)) ∧
    (maybe_send_alert ctr eng sentiment = none ↔
      ¬(ctr ≥ HIGH_CTR ∨ eng ≥ HIGH_ENG) ∧ ¬(ctr ≤ LOW_CTR ∧ sentiment < 0)) ∧
    maybe_send_alert 0.12 0.05 0.5 = some AlertMsg.highPerforming ∧
    maybe_send_alert 0.01 0.01 (-0.4) = some AlertMsg.lowPerformance ∧
    maybe_send_alert 0.05 0.05 0 = none := by
  refine ⟨?_, ?_, ?_, ?_, ?_, ?_⟩
  · by_cases h1 : highPerformingCond ctr eng
    · rw [maybe_send_alert, if_pos h1]
      simp only [highPerformingCond] at h1
      simp [h1]
    · rw [maybe_send_alert, if_neg h1]
      simp only [highPerformingCond] at h1
      by_cases h2 : lowPerformanceCond ctr sentiment
      · rw [if_pos h2]; simp [h1]
      · rw [if_neg h2]; simp [h1]
  · by_cases h1 : highPerformingCond ctr eng
    · rw [maybe_send_alert, if_pos h1]
      simp only [highPerformingCond] at h1
      simp [h1]
    · rw [maybe_send_alert, if_neg h1]
      have h1' := h1
      simp only [highPerformingCond] at h1'
      by_cases h2 : lowPerformanceCond ctr sentiment
      · rw [if_pos h2]
        simp only [lowPerformanceCond] at h2
        simp [h1', h2]
      · rw [if_neg h2]
        simp only [lowPerformanceCond] at h2
        simp [h1', h2]
  · by_cases h1 : highPerformingCond ctr eng
    · rw [maybe_send_alert, if_pos h1]
      simp only [highPerformingCond] at h1
      simp [h1]
    · rw [maybe_send_alert, if_neg h1]
      have h1' := h1
      simp only [highPerformingCond] at h1'
      by_cases h2 : lowPerformanceCond ctr sentiment
      · rw [if_pos h2]
        simp only [lowPerformanceCond] at h2
        simp [h1', h2]
      · rw [if_neg h2]
        simp only [lowPerformanceCond] at h2
        simp [h1', h2]
  · rw [maybe_send_alert,
        if_pos (show highPerformingCond 0.12 0.05 by
          rw [highPerformingCond, HIGH_CTR, HIGH_ENG]; norm_num)]
  · rw [maybe_send_alert,
        if_neg (show ¬ highPerformingCond 0.01 0.01 by
          rw [highPerformingCond, HIGH_CTR, HIGH_ENG]; norm_num),
        if_pos (show lowPerformanceCond 0.01 (-0.4) by
          rw [lowPerformanceCond, LOW_CTR]; norm_num)]
  · rw [maybe_send_alert,
        if_neg (show ¬ highPerformingCond 0.05 0.05 by
          rw [highPerformingCond, HIGH_CTR, HIGH_ENG]; norm_num),
        if_neg (show ¬ lowPerformanceCond 0.05 0 by
          rw [lowPerformanceCond, LOW_CTR]; norm_num)]

/-- C8 (counterexample): the two alert conditions CAN co-occur: at
ctr = 0, engagement = 1/5, sentiment = −1, the high-performing condition holds
(via the engagement clause, 1/5 ≥ 0.15) and the low-performance condition holds
(0 ≤ 0.02 and −1 < 0), refuting the claim that no such triple exists. -/
theorem alert_conditions_cooccur_counterexample :
    highPerformingCond 0 (1/5) ∧ lowPerformanceCond 0 (-1) := by
  constructor
  · rw [highPerformingCond, HIGH_CTR, HIGH_ENG]
    right
    norm_num
  · rw [lowPerformanceCond, LOW_CTR]
    norm_num

/-- C8 (amended): the two alert conditions can co-occur (only through the
engagement clause — the two ctr clauses alone are incompatible, since no ctr is
both ≥ 0.10 and ≤ 0.02); whenever both conditions hold, the if/elif chain of
`maybe_send_alert` fires the high-performing decision. -/
theorem alert_conditions_precedence (ctr eng sentiment : ℚ)
    (h1 : highPerformingCond ctr eng) (h2 : lowPerformanceCond ctr sentiment) :
    maybe_send_alert ctr eng sentiment = some AlertMsg.highPerforming ∧
    ¬ (ctr ≥ HIGH_CTR ∧ ctr ≤ LOW_CTR) := by
  refine ⟨by rw [maybe_send_alert, if_pos h1], ?_⟩
  rintro ⟨ha, hb⟩
  rw [HIGH_CTR] at ha
  rw [LOW_CTR] at hb
  norm_num at ha hb
  linarith

/-- C8 (witness): at the concrete co-occurring triple (0, 1/5, −1) both
conditions hold and the high-performing decision fires. -/
theorem alert_conditions_precedence_witness :
    highPerformingCond 0 (1/5) ∧ lowPerformanceCond 0 (-1) ∧
    maybe_send_alert 0 (1/5) (-1) = some AlertMsg.highPerforming := by
  have h1 : highPerformingCond 0 (1/5) := by
    rw [highPerformingCond, HIGH_CTR, HIGH_ENG]
    right
    norm_num
  have h2 : lowPerformanceCond 0 (-1) := by
    rw [lowPerformanceCond, LOW_CTR]
    norm_num
  exact ⟨h1, h2, (alert_conditions_precedence 0 (1/5) (-1) h1 h2).1⟩
